import Mathlib

/-!
Verification development for the `cacheddownloader` repository
(`cached_downloader.go`): a disk-backed, size-bounded LRU cache in front of
a downloader.

Shallow embedding notes:
* The Go map `cachedFiles map[string]CachedFile` is modelled as an
  association list with Go map semantics: lookup of an absent key yields the
  zero value, assignment replaces the entry for the key, `delete` removes it.
  Go map iteration order is unspecified; the list order models one such
  iteration order.
* The filesystem is modelled as the list of paths that currently exist
  (`disk`); `os.RemoveAll`/`os.Remove` drop a path, `os.Rename` drops the
  source and adds the destination.
* `time.Time` is modelled as `Nat`; `time.Now()` inside an operation is an
  explicit `now` argument.
* Outcomes of external effects (temp-file creation, `Downloader.Download`,
  `os.Open`/`Seek`) are explicit inputs; fallible operations return `Option`.
* The unbounded `for` eviction loop of `moveFileIntoCache` is given explicit
  fuel; running out of fuel while the loop condition still holds yields
  `none`.
-/

namespace CachedDL

/-- Embeds `CachingInfoType` (ETag / LastModified validators). -/
structure CachingInfoType where
  etag : String
  lastModified : String
deriving DecidableEq, Repr

/-- Embeds `CachedFile`: one entry of the `cachedFiles` map. -/
structure CachedFile where
  size : Int
  access : Nat
  cachingInfo : CachingInfoType
  filePath : String
deriving DecidableEq, Repr

/-- The zero value a Go map read yields for an absent key. -/
def zeroCachedFile : CachedFile := ⟨0, 0, ⟨"", ""⟩, ""⟩

/-- The `cachedFiles` map, as an association list. -/
abbrev CacheMap := List (String × CachedFile)

/-- Go map read `m[k]`: the first entry for `k`, or the zero value. -/
def mapGet : CacheMap → String → CachedFile
  | [], _ => zeroCachedFile
  | p :: t, k => if p.1 = k then p.2 else mapGet t k

/-- Go `delete(m, k)`. -/
def mapDel (m : CacheMap) (k : String) : CacheMap :=
  m.filter (fun p => p.1 != k)

/-- Go map write `m[k] = v`. -/
def mapSet (m : CacheMap) (k : String) (v : CachedFile) : CacheMap :=
  (k, v) :: mapDel m k

/-- The set of existing file paths. -/
abbrev Disk := List String

/-- Embeds `os.RemoveAll(p)` / `os.Remove(p)`: the path no longer exists. -/
def diskRemove (d : Disk) (p : String) : Disk :=
  d.filter (fun q => q != p)

/-- A path coming into existence (temp-file creation, rename target). -/
def diskAdd (d : Disk) (p : String) : Disk :=
  if p ∈ d then d else p :: d

/-- Embeds `os.Rename(src, dst)`. -/
def diskRename (d : Disk) (src dst : String) : Disk :=
  diskAdd (diskRemove d src) dst

/-- The mutable state of a `cachedDownloader`: configuration, the
`cachedFiles` map, and the modelled filesystem. -/
structure CDState where
  cachedPath : String
  maxSizeInBytes : Int
  cachedFiles : CacheMap
  disk : Disk
deriving DecidableEq, Repr

/-- Embeds `pathForCacheKey`. -/
def pathForCacheKey (m : CacheMap) (k : String) : String :=
  (mapGet m k).filePath

/-- Embeds the `usedSpace` computation of `moveFileIntoCache`: the sum of
sizes over all entries other than `cacheKey`. -/
def usedSpace (m : CacheMap) (k : String) : Int :=
  ((m.filter (fun p => p.1 != k)).map (fun p => p.2.size)).sum

/-- The sum of the recorded sizes of all resident entries. -/
def totalResidentSize (m : CacheMap) : Int :=
  (m.map (fun p => p.2.size)).sum

/-- Embeds the oldest-entry scan of the eviction loop: starting from
`(time.Now(), "")`, every entry other than `cacheKey` with a strictly
smaller access time than the best so far becomes the new candidate. -/
def selectOldest (m : CacheMap) (k : String) (now : Nat) : Nat × String :=
  m.foldl
    (fun best p =>
      if p.1 ≠ k ∧ p.2.access < best.1 then (p.2.access, p.1) else best)
    (now, "")

/-- Embeds the `for c.maxSizeInBytes < usedSpace+size` eviction loop of
`moveFileIntoCache`, with fuel. Each iteration scans for the oldest entry
other than `cacheKey`, subtracts that entry's size from `usedSpace`, and
then — exactly as the source does — removes the file and the mapping of
`cacheKey` itself (`fp := c.pathForCacheKey(cacheKey)`;
`delete(c.cachedFiles, cacheKey)`), not of the selected oldest key. -/
def evictLoop (maxSize : Int) (k : String) (size : Int) (now : Nat) :
    Nat → CacheMap → Disk → Int → Option (CacheMap × Disk)
  | 0, m, d, used =>
    if maxSize < used + size then none else some (m, d)
  | fuel + 1, m, d, used =>
    if maxSize < used + size then
      let old := selectOldest m k now
      let used' := used - (mapGet m old.2).size
      let fp := pathForCacheKey m k
      let d' := if fp ≠ "" then diskRemove d fp else d
      let m' := mapDel m k
      evictLoop maxSize k size now fuel m' d' used'
    else some (m, d)

/-- The characters after the last slash: `acc` holds the current segment
reversed. -/
def afterLastSlash : List Char → List Char → List Char
  | [], acc => acc.reverse
  | ch :: rest, acc =>
    if ch = '/' then afterLastSlash rest [] else afterLastSlash rest (ch :: acc)

/-- Embeds `filepath.Base` for the slash-separated paths this model
handles: the part of the path after its last slash. -/
def baseName (p : String) : String :=
  String.mk (afterLastSlash p.data [])

/-- Embeds `moveFileIntoCache(cacheKey, sourcePath, size)`: refuse an
oversized file, run the eviction loop, then record the new path and size
under `cacheKey` and rename the source into the cache directory. -/
def moveFileIntoCache (fuel : Nat) (c : CDState) (cacheKey sourcePath : String)
    (size : Int) (now : Nat) : Option (CDState × String) :=
  if size > c.maxSizeInBytes then
    some (c, sourcePath)
  else
    match evictLoop c.maxSizeInBytes cacheKey size now fuel c.cachedFiles c.disk
        (usedSpace c.cachedFiles cacheKey) with
    | none => none
    | some (m, d) =>
      let cachePath := c.cachedPath ++ "/" ++ baseName sourcePath
      let f := mapGet m cacheKey
      let f' := { f with size := size, filePath := cachePath }
      some ({ c with
                cachedFiles := mapSet m cacheKey f'
                disk := diskRename d sourcePath cachePath }, cachePath)

/-- Embeds `removeCacheEntryFor`. -/
def removeCacheEntryFor (c : CDState) (k : String) : CDState :=
  let fp := pathForCacheKey c.cachedFiles k
  { c with
    cachedFiles := mapDel c.cachedFiles k
    disk := if fp ≠ "" then diskRemove c.disk fp else c.disk }

/-- Embeds `recordAccessForCacheKey`: sets the access time to now, creating
a zero entry for an absent key. -/
def recordAccessForCacheKey (c : CDState) (k : String) (now : Nat) : CDState :=
  { c with cachedFiles :=
      mapSet c.cachedFiles k { mapGet c.cachedFiles k with access := now } }

/-- Embeds `setCachingInfoForCacheKey`. -/
def setCachingInfoForCacheKey (c : CDState) (k : String)
    (info : CachingInfoType) : CDState :=
  { c with cachedFiles :=
      mapSet c.cachedFiles k { mapGet c.cachedFiles k with cachingInfo := info } }

/-- The outcome of the external `Downloader.Download` call: an error, or
`(didDownload, size, cachingInfo)`. -/
inductive DownloadResult where
  | err
  | ok (didDownload : Bool) (size : Int) (info : CachingInfoType)
deriving DecidableEq, Repr

/-- What a `Fetch`-level call yields to its caller: one of the three error
returns, or an open handle on a path. -/
inductive FetchResult where
  | errTempFile
  | errDownload
  | errOpen
  | handle (path : String)
deriving DecidableEq, Repr

/-- True for the three error returns. -/
def FetchResult.isError : FetchResult → Bool
  | FetchResult.handle _ => false
  | _ => true

/-- The state of `fetchCachedFile` once the access time is recorded and the
temporary file exists on disk. -/
def tempAdded (c : CDState) (cacheKey tempName : String) (now : Nat) :
    CDState :=
  { recordAccessForCacheKey c cacheKey now with
    disk := diskAdd (recordAccessForCacheKey c cacheKey now).disk tempName }

/-- The branch of `fetchCachedFile` that follows a successful download:
on `didDownload` with both validators empty remove the entry and serve the
temporary file; on `didDownload` with a validator present record the
validators and admit the file; otherwise serve the previously tracked path
(read before the download, as the source does). -/
def downloadStep (fuel : Nat) (c : CDState) (cacheKey tempName : String)
    (didDownload : Bool) (size : Int) (info : CachingInfoType) (now : Nat) :
    Option (CDState × String) :=
  if didDownload then
    if info.etag = "" ∧ info.lastModified = "" then
      some (removeCacheEntryFor (tempAdded c cacheKey tempName now) cacheKey,
            tempName)
    else
      moveFileIntoCache fuel
        (setCachingInfoForCacheKey (tempAdded c cacheKey tempName now)
          cacheKey info)
        cacheKey tempName size now
  else
    some (tempAdded c cacheKey tempName now,
          pathForCacheKey (recordAccessForCacheKey c cacheKey now).cachedFiles
            cacheKey)

/-- Embeds `fetchCachedFile`. External effects are inputs: `tempOk` and
`tempName` for `ioutil.TempFile`, `dl` for the download, `openOk` for the
final `os.Open`/`Seek` pair. The deferred `os.RemoveAll(tempFileName)` runs
at every return after the temp file exists (the Unix unlink-while-open
semantics the source's comment appeals to). `none` models the eviction
loop running out of fuel. -/
def fetchCachedFile (fuel : Nat) (c : CDState) (cacheKey : String)
    (tempOk : Bool) (tempName : String) (dl : DownloadResult) (openOk : Bool)
    (now : Nat) : Option (CDState × FetchResult) :=
  if tempOk = false then
    some (recordAccessForCacheKey c cacheKey now, FetchResult.errTempFile)
  else
    match dl with
    | DownloadResult.err =>
      some ({ tempAdded c cacheKey tempName now with
              disk := diskRemove (tempAdded c cacheKey tempName now).disk
                tempName },
            FetchResult.errDownload)
    | DownloadResult.ok didDownload size info =>
      match downloadStep fuel c cacheKey tempName didDownload size info now with
      | none => none
      | some (c4, path) =>
        if openOk then
          some ({ c4 with disk := diskRemove c4.disk tempName },
                FetchResult.handle path)
        else
          some ({ c4 with disk := diskRemove c4.disk tempName },
                FetchResult.errOpen)

/-- Embeds `fetchUncachedFile` (the Unix branch: the temp file is unlinked
right away, the open handle is returned). -/
def fetchUncachedFile (c : CDState) (tempOk : Bool) (tempName : String)
    (dl : DownloadResult) : CDState × FetchResult :=
  if tempOk = false then
    (c, FetchResult.errTempFile)
  else
    let c1 : CDState := { c with disk := diskAdd c.disk tempName }
    match dl with
    | DownloadResult.err =>
      ({ c1 with disk := diskRemove c1.disk tempName }, FetchResult.errDownload)
    | DownloadResult.ok _ _ _ =>
      ({ c1 with disk := diskRemove c1.disk tempName },
       FetchResult.handle tempName)

/-- Embeds `Fetch`: an empty cache key bypasses the store, otherwise the key
is resolved (`hash` stands for the md5-hex resolution) and `fetchCachedFile`
runs. -/
def Fetch (hash : String → String) (fuel : Nat) (c : CDState)
    (cacheKey : String) (tempOk : Bool) (tempName : String)
    (dl : DownloadResult) (openOk : Bool) (now : Nat) :
    Option (CDState × FetchResult) :=
  if cacheKey = "" then
    some (fetchUncachedFile c tempOk tempName dl)
  else
    fetchCachedFile fuel c (hash cacheKey) tempOk tempName dl openOk now

/-- Embeds the deferred-deletion (Windows) finalizer for a tracked
cache-path handle: at close time, delete the handle's path only when the
store's current path for the key differs from it. -/
def trackedHandleCleanup (c : CDState) (cacheKey path : String) : CDState :=
  let cf := mapGet c.cachedFiles cacheKey
  if path ≠ cf.filePath then { c with disk := diskRemove c.disk path } else c

/-! Helper lemmas about the map and disk models. -/

theorem mem_diskRemove {d : Disk} {x y : String} :
    x ∈ diskRemove d y ↔ x ∈ d ∧ x ≠ y := by
  simp [diskRemove, List.mem_filter]

theorem not_mem_diskRemove_self (d : Disk) (p : String) :
    p ∉ diskRemove d p := by
  intro h
  exact (mem_diskRemove.mp h).2 rfl

theorem mem_of_mem_diskRemove {d : Disk} {x y : String}
    (h : x ∈ diskRemove d y) : x ∈ d :=
  (mem_diskRemove.mp h).1

theorem mem_diskAdd {d : Disk} {x y : String} :
    x ∈ diskAdd d y ↔ x ∈ d ∨ x = y := by
  unfold diskAdd
  split
  · constructor
    · exact Or.inl
    · rintro (hx | rfl)
      · exact hx
      · assumption
  · simp [List.mem_cons, or_comm]

theorem diskRemove_diskAdd_self (d : Disk) (p : String) :
    diskRemove (diskAdd d p) p = diskRemove d p := by
  unfold diskAdd
  split
  · rfl
  · simp [diskRemove, List.filter_cons]

theorem mapGet_cons_eq {a : String × CachedFile} {t : CacheMap} {k : String}
    (h : a.1 = k) : mapGet (a :: t) k = a.2 := by
  simp [mapGet, h]

theorem mapGet_cons_ne {a : String × CachedFile} {t : CacheMap} {k : String}
    (h : a.1 ≠ k) : mapGet (a :: t) k = mapGet t k := by
  simp [mapGet, h]

theorem mapGet_mapSet_self (m : CacheMap) (k : String) (v : CachedFile) :
    mapGet (mapSet m k v) k = v := by
  simp [mapGet, mapSet]

theorem mapGet_mapDel_ne {k k' : String} (m : CacheMap) (h : k' ≠ k) :
    mapGet (mapDel m k) k' = mapGet m k' := by
  induction m with
  | nil => rfl
  | cons a t ih =>
    rw [mapDel, List.filter_cons]
    by_cases ha : a.1 = k
    · rw [if_neg (by simp [ha])]
      rw [mapGet_cons_ne (fun hk => h (hk.symm.trans ha))]
      exact ih
    · rw [if_pos (by simp [ha])]
      by_cases hak : a.1 = k'
      · rw [mapGet_cons_eq hak, mapGet_cons_eq hak]
      · rw [mapGet_cons_ne hak, mapGet_cons_ne hak]
        exact ih

theorem mapGet_mapSet_ne {k k' : String} (m : CacheMap) (v : CachedFile)
    (h : k' ≠ k) : mapGet (mapSet m k v) k' = mapGet m k' := by
  rw [mapSet, mapGet_cons_ne (Ne.symm h)]
  exact mapGet_mapDel_ne m h

theorem mapDel_mapSet_self (m : CacheMap) (k : String) (v : CachedFile) :
    mapDel (mapSet m k v) k = mapDel m k := by
  rw [mapSet, mapDel, List.filter_cons, if_neg (by simp)]
  apply List.filter_eq_self.mpr
  intro a ha
  exact (List.mem_filter.mp ha).2

theorem fst_ne_of_mem_mapDel {m : CacheMap} {k : String} {pr : String × CachedFile}
    (h : pr ∈ mapDel m k) : pr.1 ≠ k := by
  have := List.mem_filter.mp h
  simpa using this.2

theorem pathForCacheKey_mapSet_access (m : CacheMap) (k : String) (now : Nat) :
    pathForCacheKey (mapSet m k { mapGet m k with access := now }) k =
      pathForCacheKey m k := by
  simp [pathForCacheKey, mapGet_mapSet_self]

theorem totalResidentSize_nil : totalResidentSize [] = 0 := rfl

theorem totalResidentSize_cons (p : String × CachedFile) (t : CacheMap) :
    totalResidentSize (p :: t) = p.2.size + totalResidentSize t := by
  simp [totalResidentSize]

theorem mapDel_eq_self_of_not_mem {m : CacheMap} {k : String}
    (h : k ∉ m.map Prod.fst) : mapDel m k = m := by
  rw [mapDel, List.filter_eq_self]
  intro a ha
  simp only [bne_iff_ne, ne_eq]
  intro hak
  exact h (List.mem_map.mpr ⟨a, ha, hak⟩)

theorem totalResidentSize_split (m : CacheMap) (k : String)
    (h : (m.map Prod.fst).Nodup) :
    totalResidentSize m =
      (mapGet m k).size + totalResidentSize (mapDel m k) := by
  induction m with
  | nil => rfl
  | cons a t ih =>
    rw [List.map_cons, List.nodup_cons] at h
    rw [mapDel, List.filter_cons]
    by_cases ha : a.1 = k
    · rw [if_neg (by simp [ha])]
      rw [show mapGet (a :: t) k = a.2 from by simp [mapGet, ha]]
      rw [show (List.filter (fun p => p.1 != k) t : CacheMap) = mapDel t k from rfl]
      rw [mapDel_eq_self_of_not_mem (ha ▸ h.1)]
      exact totalResidentSize_cons a t
    · rw [if_pos (by simp [ha])]
      rw [show mapGet (a :: t) k = mapGet t k from by simp [mapGet, ha]]
      rw [totalResidentSize_cons, totalResidentSize_cons, ih h.2]
      rw [show (List.filter (fun p => p.1 != k) t : CacheMap) = mapDel t k from rfl]
      ring

theorem totalResidentSize_mapSet (m : CacheMap) (k : String) (v : CachedFile) :
    totalResidentSize (mapSet m k v) =
      v.size + totalResidentSize (mapDel m k) := by
  rw [mapSet]
  exact totalResidentSize_cons _ _

/-! Concrete store states used by the concrete-input theorems. -/

/-- The LRU test state of the spec: entry `a` of size 40 accessed at time 1,
entry `b` of size 50 accessed at time 2, capacity 100. -/
def lruState : CDState :=
  ⟨"/cache", 100,
   [("a", ⟨40, 1, ⟨"ea", "la"⟩, "/cache/a0"⟩),
    ("b", ⟨50, 2, ⟨"eb", "lb"⟩, "/cache/b0"⟩)],
   ["/cache/a0", "/cache/b0"]⟩

/-- A state whose least-recently-used entry `a` has recorded size 0 (as
`recordAccessForCacheKey` creates for a key never admitted), next to entry
`b` of size 60; capacity 100. -/
def zState : CDState :=
  ⟨"/cache", 100,
   [("a", ⟨0, 1, ⟨"", ""⟩, ""⟩),
    ("b", ⟨60, 2, ⟨"eb", "lb"⟩, "/cache/b0"⟩)],
   ["/cache/b0"]⟩

/-- A state in which key `k` is resident with backing file `/cache/old`,
for the re-admission scenario. -/
def reState : CDState :=
  ⟨"/cache", 100, [("k", ⟨10, 1, ⟨"e", "l"⟩, "/cache/old"⟩)], ["/cache/old"]⟩

/-- A small well-formed state used by witness instantiations. -/
def wState : CDState :=
  ⟨"/cache", 100, [("k", ⟨10, 1, ⟨"e", "l"⟩, "/cache/kf"⟩)], ["/cache/kf"]⟩

/-- Stands for the key-resolution function in witness instantiations. -/
def idHash : String → String := fun s => s

/-- C1: the claim says the eviction loop evicts the resident entry other
than the admitted id with the smallest access time, so that admitting `c`
(size 20) into `lruState` evicts `a` and leaves residents `{b, c}`. The
code instead deletes the mapping and file of the admitted key itself
(`delete(c.cachedFiles, cacheKey)` on the source's line 191), so `a` stays
resident: the resident keys after the call are `c`, `a` and `b`, `a`'s
entry is intact and its backing file still exists. -/
theorem C1_admitted_key_deleted_not_oldest :
    (moveFileIntoCache 5 lruState "c" "/tmp/c-1" 20 10).map
        (fun r => (r.1.cachedFiles.map Prod.fst,
                   mapGet r.1.cachedFiles "a",
                   r.1.disk))
      = some (["c", "a", "b"],
              ⟨40, 1, ⟨"ea", "la"⟩, "/cache/a0"⟩,
              ["/cache/c-1", "/cache/a0", "/cache/b0"]) := by rfl

/-- C2: on the same input, the sum of resident sizes after `admit` is 110,
which exceeds the capacity 100 even though the admitted entry's own size
(20) does not: the capacity invariant fails on the code. -/
theorem C2_capacity_invariant_fails :
    ((moveFileIntoCache 5 lruState "c" "/tmp/c-1" 20 10).map
        (fun r => totalResidentSize r.1.cachedFiles) = some 110)
    ∧ (100 : Int) < 110 := ⟨rfl, by decide⟩

/-- C3: when the least-recently-used entry other than the admitted key has
recorded size 0 and the store is over capacity, each iteration of the
code's eviction loop subtracts 0 from `usedSpace` and deletes only the
admitted key's (absent) mapping, leaving the state unchanged: the loop
never exits, for any amount of fuel. -/
theorem C3_eviction_loop_diverges (fuel : Nat) :
    moveFileIntoCache fuel zState "c" "/tmp/c-1" 50 10 = none := by
  have h : ∀ n, evictLoop zState.maxSizeInBytes "c" 50 10 n zState.cachedFiles
      zState.disk (usedSpace zState.cachedFiles "c") = none := by
    intro n
    induction n with
    | zero => rfl
    | succ k ih => exact Eq.trans (by rfl) ih
  unfold moveFileIntoCache
  rw [if_neg (by decide), h fuel]

/-- C3 at one concrete amount of fuel. -/
theorem C3_witness :
    moveFileIntoCache 7 zState "c" "/tmp/c-1" 50 10 = none :=
  C3_eviction_loop_diverges 7

/-- C4 counterexample: re-admitting key `k` (already resident with backing
file `/cache/old`) with a new transfer at `/tmp/k-2`, with enough free
capacity, replaces the mapping with the new path yet leaves the prior
backing file `/cache/old` on disk: the claim's "the prior entry's backing
file is destroyed" is false at this input. -/
theorem C4_prior_backing_file_survives :
    (moveFileIntoCache 3 reState "k" "/tmp/k-2" 10 10).map
        (fun r => (pathForCacheKey r.1.cachedFiles "k", r.1.disk))
      = some ("/cache/k-2", ["/cache/k-2", "/cache/old"]) := by rfl

/-- The eviction loop is not entered when the store already has room. -/
theorem evictLoop_no_pressure (maxSize : Int) (k : String) (size : Int)
    (now : Nat) (fuel : Nat) (m : CacheMap) (d : Disk) (used : Int)
    (h : used + size ≤ maxSize) :
    evictLoop maxSize k size now fuel m d used = some (m, d) := by
  cases fuel with
  | zero => rw [evictLoop, if_neg (not_lt.mpr h)]
  | succ n => rw [evictLoop, if_neg (not_lt.mpr h)]

/-- C4 (amended): when `admit` records a new path and size under an id that
already has a resident entry and no eviction is needed, the mapping for the
id is replaced (new path, new size) and the temporary transfer file is
promoted: renamed from `sourcePath` into the cache directory and referenced
by the mapping. The prior entry's backing file is NOT deleted by `admit`
itself: every on-disk path other than `sourcePath` survives the call;
deletion of a replaced path is left to the close-time cleanup of the
deferred-deletion model. -/
theorem C4_readmission_replaces_mapping (fuel : Nat) (c : CDState)
    (key src : String) (size : Int) (now : Nat)
    (h1 : size ≤ c.maxSizeInBytes)
    (h2 : usedSpace c.cachedFiles key + size ≤ c.maxSizeInBytes) :
    moveFileIntoCache fuel c key src size now =
      some ({ c with
                cachedFiles := mapSet c.cachedFiles key
                  { mapGet c.cachedFiles key with
                      size := size
                      filePath := c.cachedPath ++ "/" ++ baseName src }
                disk := diskRename c.disk src
                  (c.cachedPath ++ "/" ++ baseName src) },
            c.cachedPath ++ "/" ++ baseName src)
    ∧ ∀ p ∈ c.disk, p ≠ src →
        p ∈ diskRename c.disk src (c.cachedPath ++ "/" ++ baseName src) := by
  constructor
  · unfold moveFileIntoCache
    rw [if_neg (not_lt.mpr h1),
        evictLoop_no_pressure c.maxSizeInBytes key size now fuel
          c.cachedFiles c.disk (usedSpace c.cachedFiles key) h2]
  · intro p hp hne
    exact mem_diskAdd.mpr (Or.inl (mem_diskRemove.mpr ⟨hp, hne⟩))

/-- C4 amended claim at the concrete re-admission input. -/
theorem C4_witness :
    (10 : Int) ≤ reState.maxSizeInBytes
    ∧ usedSpace reState.cachedFiles "k" + 10 ≤ reState.maxSizeInBytes
    ∧ (moveFileIntoCache 3 reState "k" "/tmp/k-2" 10 10).map
        (fun r => r.2) = some "/cache/k-2" := by
  refine ⟨by decide, by decide, ?_⟩
  rw [(C4_readmission_replaces_mapping 3 reState "k" "/tmp/k-2" 10 10
        (by decide) (by decide)).1]
  rfl

/-- C5: `admit` refuses an oversized file up front — the state (store
mapping and disk alike) is returned unchanged with the source path, so no
entry is evicted and the file is never registered — and the fetch around it
serves the freshly transferred temporary file as the returned handle. -/
theorem C5_oversized_refused (fuel : Nat) (c : CDState)
    (key src tempName : String) (size : Int) (info : CachingInfoType)
    (now : Nat)
    (h : size > c.maxSizeInBytes)
    (hinfo : ¬(info.etag = "" ∧ info.lastModified = "")) :
    moveFileIntoCache fuel c key src size now = some (c, src)
    ∧ (fetchCachedFile fuel c key true tempName
         (DownloadResult.ok true size info) true now).map (fun r => r.2)
        = some (FetchResult.handle tempName) := by
  have hrefuse : ∀ c' : CDState, c'.maxSizeInBytes = c.maxSizeInBytes →
      ∀ src', moveFileIntoCache fuel c' key src' size now = some (c', src') := by
    intro c' hmax src'
    unfold moveFileIntoCache
    rw [if_pos (hmax ▸ h)]
  constructor
  · exact hrefuse c rfl src
  · have hstep : downloadStep fuel c key tempName true size info now
        = some (setCachingInfoForCacheKey (tempAdded c key tempName now)
                  key info, tempName) := by
      unfold downloadStep
      rw [if_pos rfl, if_neg hinfo]
      exact hrefuse
        (setCachingInfoForCacheKey (tempAdded c key tempName now) key info)
        rfl tempName
    unfold fetchCachedFile
    rw [if_neg (by decide)]
    simp only
    rw [hstep]
    rfl

/-- C5 at a concrete oversized input. -/
theorem C5_witness :
    (200 : Int) > wState.maxSizeInBytes
    ∧ moveFileIntoCache 2 wState "k" "/tmp/t-1" 200 5
        = some (wState, "/tmp/t-1") :=
  ⟨by decide,
   (C5_oversized_refused 2 wState "k" "/tmp/t-1" "/tmp/t-1" 200
      ⟨"e", ""⟩ 5 (by decide) (by decide)).1⟩

/-- Access recording does not change the tracked path of the key. -/
theorem pathForCacheKey_recordAccess (c : CDState) (k : String) (now : Nat) :
    pathForCacheKey (recordAccessForCacheKey c k now).cachedFiles k
      = pathForCacheKey c.cachedFiles k := by
  simp only [recordAccessForCacheKey]
  exact pathForCacheKey_mapSet_access c.cachedFiles k now

/-- The disk after `removeCacheEntryFor` when the key has a tracked path:
that path is unlinked. -/
theorem removeCacheEntryFor_disk_of_path_ne (c : CDState) (k : String)
    (h : pathForCacheKey c.cachedFiles k ≠ "") :
    (removeCacheEntryFor c k).disk =
      diskRemove c.disk (pathForCacheKey c.cachedFiles k) := by
  simp only [removeCacheEntryFor]
  rw [if_pos h]

/-- After `removeCacheEntryFor`, no resident entry carries the key. -/
theorem removeCacheEntry_no_key (s : CDState) (k : String) :
    ∀ pr ∈ (removeCacheEntryFor s k).cachedFiles, pr.1 ≠ k :=
  fun _ hpr => fst_ne_of_mem_mapDel hpr

/-- After `removeCacheEntryFor`, the key's prior backing file (when it had
one) no longer exists. -/
theorem removeCacheEntry_path_gone (s : CDState) (k : String)
    (h : pathForCacheKey s.cachedFiles k ≠ "") :
    pathForCacheKey s.cachedFiles k ∉ (removeCacheEntryFor s k).disk := by
  rw [removeCacheEntryFor_disk_of_path_ne s k h]
  exact not_mem_diskRemove_self _ _

/-- C6: on a fetched download whose new validators are both empty, the
store's entry for the key is removed (no resident entry for the key
remains, and its prior backing file, if any, is gone from disk) and the
freshly transferred temporary file is what the call serves. -/
theorem C6_noncacheable_removes_entry (fuel : Nat) (c : CDState)
    (key tempName : String) (sz : Int) (now : Nat) :
    ∃ c', fetchCachedFile fuel c key true tempName
        (DownloadResult.ok true sz ⟨"", ""⟩) true now
      = some (c', FetchResult.handle tempName)
    ∧ (∀ pr ∈ c'.cachedFiles, pr.1 ≠ key)
    ∧ (pathForCacheKey c.cachedFiles key ≠ "" →
        pathForCacheKey c.cachedFiles key ∉ c'.disk) := by
  have hraw : fetchCachedFile fuel c key true tempName
      (DownloadResult.ok true sz ⟨"", ""⟩) true now
      = some ({ removeCacheEntryFor
                  { recordAccessForCacheKey c key now with
                    disk := diskAdd c.disk tempName } key with
                disk := diskRemove (removeCacheEntryFor
                  { recordAccessForCacheKey c key now with
                    disk := diskAdd c.disk tempName } key).disk tempName },
              FetchResult.handle tempName) := rfl
  refine ⟨_, hraw, ?_, ?_⟩
  · intro pr hpr
    exact removeCacheEntry_no_key _ key pr hpr
  · intro hfp hmem
    have hb : pathForCacheKey
        ({ recordAccessForCacheKey c key now with
           disk := diskAdd c.disk tempName } : CDState).cachedFiles key
        = pathForCacheKey c.cachedFiles key :=
      pathForCacheKey_recordAccess c key now
    have hgone := removeCacheEntry_path_gone
      ({ recordAccessForCacheKey c key now with
         disk := diskAdd c.disk tempName } : CDState) key
      (by rw [hb]; exact hfp)
    rw [hb] at hgone
    exact hgone (mem_of_mem_diskRemove hmem)

/-- C6 at a concrete input. -/
theorem C6_witness :
    ∃ c', fetchCachedFile 1 wState "k" true "/tmp/t-3"
        (DownloadResult.ok true 7 ⟨"", ""⟩) true 9
      = some (c', FetchResult.handle "/tmp/t-3")
    ∧ (∀ pr ∈ c'.cachedFiles, pr.1 ≠ "k") := by
  obtain ⟨c', h1, h2, h3⟩ :=
    C6_noncacheable_removes_entry 1 wState "k" "/tmp/t-3" 7 9
  exact ⟨c', h1, h2⟩

/-- C7: the close-time cleanup of a tracked cache-path handle leaves the
path on disk exactly when it was there and is still the store's current
path for the key; a path that differs from the store's current path for
the key is deleted. -/
theorem C7_cleanup_deletes_iff_stale (c : CDState) (key path : String) :
    path ∈ (trackedHandleCleanup c key path).disk ↔
      path ∈ c.disk ∧ pathForCacheKey c.cachedFiles key = path := by
  unfold trackedHandleCleanup
  by_cases h : path = (mapGet c.cachedFiles key).filePath
  · rw [if_neg (fun hc => hc h)]
    constructor
    · intro hmem
      exact ⟨hmem, h.symm⟩
    · intro hmem
      exact hmem.1
  · rw [if_pos h]
    constructor
    · intro hmem
      exact absurd hmem (not_mem_diskRemove_self c.disk path)
    · intro hmem
      exact absurd hmem.2 (fun he => h he.symm)

/-- C7 at a concrete input: a still-current tracked path is not deleted. -/
theorem C7_witness :
    "/cache/kf" ∈ (trackedHandleCleanup wState "k" "/cache/kf").disk ↔
      "/cache/kf" ∈ wState.disk
      ∧ pathForCacheKey wState.cachedFiles "k" = "/cache/kf" :=
  C7_cleanup_deletes_iff_stale wState "k" "/cache/kf"

/-- C8: when the downloader reports the resource unchanged
(`didDownload = false`), the call serves the key's existing tracked path,
discards the temporary file, leaves the total resident size, the key's
stored validators and every other key's entry unchanged, and advances the
key's access time to now. -/
theorem C8_unchanged_serves_existing (fuel : Nat) (c : CDState)
    (key tempName : String) (sz : Int) (info : CachingInfoType) (now : Nat)
    (hnodup : (c.cachedFiles.map Prod.fst).Nodup) :
    ∃ c', fetchCachedFile fuel c key true tempName
        (DownloadResult.ok false sz info) true now
      = some (c', FetchResult.handle (pathForCacheKey c.cachedFiles key))
    ∧ totalResidentSize c'.cachedFiles = totalResidentSize c.cachedFiles
    ∧ (mapGet c'.cachedFiles key).cachingInfo
        = (mapGet c.cachedFiles key).cachingInfo
    ∧ (mapGet c'.cachedFiles key).access = now
    ∧ (∀ k2, k2 ≠ key → mapGet c'.cachedFiles k2 = mapGet c.cachedFiles k2)
    ∧ c'.disk = diskRemove c.disk tempName
    ∧ tempName ∉ c'.disk := by
  refine ⟨⟨c.cachedPath, c.maxSizeInBytes,
           mapSet c.cachedFiles key
             { mapGet c.cachedFiles key with access := now },
           diskRemove c.disk tempName⟩, ?_, ?_, ?_, ?_, ?_, rfl, ?_⟩
  · have hstep : fetchCachedFile fuel c key true tempName
        (DownloadResult.ok false sz info) true now
        = some ({ recordAccessForCacheKey c key now with
                  disk := diskRemove (diskAdd c.disk tempName) tempName },
                FetchResult.handle (pathForCacheKey
                  (recordAccessForCacheKey c key now).cachedFiles key)) := rfl
    rw [hstep, pathForCacheKey_recordAccess c key now,
        diskRemove_diskAdd_self]
    rfl
  · rw [totalResidentSize_mapSet,
        totalResidentSize_split c.cachedFiles key hnodup]
  · rw [mapGet_mapSet_self]
  · rw [mapGet_mapSet_self]
  · intro k2 hk2
    exact mapGet_mapSet_ne c.cachedFiles _ hk2
  · exact not_mem_diskRemove_self c.disk tempName

/-- C8 at a concrete input. -/
theorem C8_witness :
    ∃ c', fetchCachedFile 2 wState "k" true "/tmp/t-1"
        (DownloadResult.ok false 0 ⟨"x", "y"⟩) true 9
      = some (c', FetchResult.handle "/cache/kf") := by
  obtain ⟨c', h1, -⟩ :=
    C8_unchanged_serves_existing 2 wState "k" "/tmp/t-1" 0 ⟨"x", "y"⟩ 9
      (by decide)
  exact ⟨c', h1⟩

/-- C9: whenever a `Fetch` call returns one of the three error results, the
temporary file of that call does not exist afterwards (provided, as
`ioutil.TempFile` guarantees, its name was fresh). -/
theorem C9_error_removes_temp (hash : String → String) (fuel : Nat)
    (c : CDState) (cacheKey : String) (tempOk : Bool) (tempName : String)
    (dl : DownloadResult) (openOk : Bool) (now : Nat) (c' : CDState)
    (r : FetchResult)
    (hfresh : tempName ∉ c.disk)
    (hfetch : Fetch hash fuel c cacheKey tempOk tempName dl openOk now
        = some (c', r))
    (herr : r.isError = true) :
    tempName ∉ c'.disk := by
  by_cases hk : cacheKey = ""
  · rw [Fetch, if_pos hk] at hfetch
    cases tempOk with
    | false =>
      have h3 : ((c, FetchResult.errTempFile) : CDState × FetchResult)
          = (c', r) := Option.some.inj hfetch
      injection h3 with hc hr
      subst hc
      exact hfresh
    | true =>
      cases dl with
      | err =>
        have h3 : (({ c with
              disk := diskRemove (diskAdd c.disk tempName) tempName }
              : CDState), FetchResult.errDownload) = (c', r) :=
          Option.some.inj hfetch
        injection h3 with hc hr
        subst hc
        show tempName ∉ diskRemove (diskAdd c.disk tempName) tempName
        rw [diskRemove_diskAdd_self]
        exact not_mem_diskRemove_self c.disk tempName
      | ok dd sz info =>
        have h3 : (({ c with
              disk := diskRemove (diskAdd c.disk tempName) tempName }
              : CDState), FetchResult.handle tempName) = (c', r) :=
          Option.some.inj hfetch
        injection h3 with hc hr
        subst hr
        exact Bool.noConfusion herr
  · rw [Fetch, if_neg hk] at hfetch
    cases tempOk with
    | false =>
      have h3 : (recordAccessForCacheKey c (hash cacheKey) now,
          FetchResult.errTempFile) = (c', r) := Option.some.inj hfetch
      injection h3 with hc hr
      subst hc
      exact hfresh
    | true =>
      cases dl with
      | err =>
        have h3 : (({ recordAccessForCacheKey c (hash cacheKey) now with
              disk := diskRemove (diskAdd c.disk tempName) tempName }
              : CDState), FetchResult.errDownload) = (c', r) :=
          Option.some.inj hfetch
        injection h3 with hc hr
        subst hc
        show tempName ∉ diskRemove (diskAdd c.disk tempName) tempName
        rw [diskRemove_diskAdd_self]
        exact not_mem_diskRemove_self c.disk tempName
      | ok dd sz info =>
        simp only [fetchCachedFile] at hfetch
        rcases hstep : downloadStep fuel c (hash cacheKey) tempName dd sz
            info now with _ | ⟨c4, path⟩
        · rw [hstep] at hfetch
          exact Option.noConfusion hfetch
        · rw [hstep] at hfetch
          cases openOk with
          | false =>
            have h3 : (({ c4 with disk := diskRemove c4.disk tempName }
                : CDState), FetchResult.errOpen) = (c', r) :=
              Option.some.inj hfetch
            injection h3 with hc hr
            subst hc
            show tempName ∉ diskRemove c4.disk tempName
            exact not_mem_diskRemove_self c4.disk tempName
          | true =>
            have h3 : (({ c4 with disk := diskRemove c4.disk tempName }
                : CDState), FetchResult.handle path) = (c', r) :=
              Option.some.inj hfetch
            injection h3 with hc hr
            subst hr
            exact Bool.noConfusion herr

/-- C9 at a concrete failing download. -/
theorem C9_witness :
    ∃ c', Fetch idHash 1 wState "key" true "/tmp/t-2" DownloadResult.err
        true 9 = some (c', FetchResult.errDownload)
    ∧ "/tmp/t-2" ∉ c'.disk := by
  refine ⟨_, rfl, ?_⟩
  exact C9_error_removes_temp idHash 1 wState "key" true "/tmp/t-2"
    DownloadResult.err true 9 _ FetchResult.errDownload (by decide) rfl rfl

/-- C10: a `Fetch` with the empty cache key leaves the entry store exactly
as it was, and the backing file of the handle it returns no longer exists
as a path once the call returns (the self-cleaning unlink of the bypass
path). -/
theorem C10_bypass_leaves_store (hash : String → String) (fuel : Nat)
    (c : CDState) (tempOk : Bool) (tempName : String) (dl : DownloadResult)
    (openOk : Bool) (now : Nat) :
    ∃ res, Fetch hash fuel c "" tempOk tempName dl openOk now = some res
    ∧ res.1.cachedFiles = c.cachedFiles
    ∧ ∀ p, res.2 = FetchResult.handle p → p ∉ res.1.disk := by
  refine ⟨fetchUncachedFile c tempOk tempName dl, by rw [Fetch, if_pos rfl],
    ?_, ?_⟩
  · cases tempOk with
    | false => rfl
    | true => cases dl <;> rfl
  · intro p hp
    cases tempOk with
    | false => exact absurd hp (by simp [fetchUncachedFile])
    | true =>
      cases dl with
      | err => exact absurd hp (by simp [fetchUncachedFile])
      | ok dd sz info =>
        have hp' : FetchResult.handle tempName = FetchResult.handle p := hp
        cases hp'
        show tempName ∉ diskRemove (diskAdd c.disk tempName) tempName
        rw [diskRemove_diskAdd_self]
        exact not_mem_diskRemove_self c.disk tempName

/-- C10 at a concrete input. -/
theorem C10_witness :
    ∃ res, Fetch idHash 0 wState "" true "/tmp/t-4"
        (DownloadResult.ok true 3 ⟨"", "a"⟩) true 9 = some res
    ∧ res.1.cachedFiles = wState.cachedFiles := by
  obtain ⟨res, h1, h2, -⟩ :=
    C10_bypass_leaves_store idHash 0 wState true "/tmp/t-4"
      (DownloadResult.ok true 3 ⟨"", "a"⟩) true 9
  exact ⟨res, h1, h2⟩

end CachedDL
